import Mathlib

/-!
Verification of the FinanceToolkit backtesting engine
(`src/backtesting/engine.py`, `src/backtesting/strategies.py`).

Modelling conventions for the shallow embedding:
* Python `float` values (cash, prices, commissions) are modelled as `ℚ`;
  Python `int` quantities as `ℤ`; tickers as `String`.
* Python `dict`s (portfolio positions, price maps) are association lists in
  insertion order, matching `dict` insertion-order semantics; `dict` keys are
  unique in every state reachable by the modelled operations.
* `int(x)` is truncation toward zero (`pyInt`).
* A Python function that can raise is modelled with `Option`/`Except`
  (`none`/`error` marks the raised exception).
* Timestamps are dropped: no modelled operation reads them.
-/

set_option maxHeartbeats 1000000

/-- Order side (`Side` enum in `engine.py`). -/
inductive Side where
  | buy
  | sell
deriving DecidableEq, Repr

/-- Order kind (`OrderType` enum in `engine.py`). -/
inductive OrderType where
  | market
  | limit
deriving DecidableEq, Repr

/-- A trading order (`Order` dataclass in `engine.py`); the timestamp field is
dropped because execution never reads it. -/
structure Order where
  ticker : String
  side : Side
  quantity : Int
  order_type : OrderType := OrderType.market
  limit_price : Option ℚ := none
deriving DecidableEq, Repr

/-- An executed trade (`Trade` dataclass in `engine.py`), timestamp dropped. -/
structure Trade where
  ticker : String
  side : Side
  quantity : Int
  price : ℚ
  commission : ℚ
deriving DecidableEq, Repr

/-- Model of `Trade.value`: quantity×price plus commission for buys, minus for sells. -/
def Trade.value (t : Trade) : ℚ :=
  match t.side with
  | Side.buy => (t.quantity : ℚ) * t.price + t.commission
  | Side.sell => (t.quantity : ℚ) * t.price - t.commission

/-- A position in one security (`Position` dataclass in `engine.py`). -/
structure Position where
  ticker : String
  quantity : Int := 0
  avg_cost : ℚ := 0
deriving DecidableEq, Repr

/-- Model of `Position.update`: weighted-average cost on buys; on sells the quantity is
decremented and both fields reset to zero once the quantity reaches zero.
Mirrors that the buy branch leaves `avg_cost` unchanged when the new quantity
is not positive, exactly as in the source. -/
def Position.update (p : Position) (t : Trade) : Position :=
  match t.side with
  | Side.buy =>
      let total_cost := (p.quantity : ℚ) * p.avg_cost + (t.quantity : ℚ) * t.price
      let q := p.quantity + t.quantity
      if 0 < q then { p with quantity := q, avg_cost := total_cost / (q : ℚ) }
      else { p with quantity := q }
  | Side.sell =>
      let q := p.quantity - t.quantity
      if q ≤ 0 then { p with quantity := 0, avg_cost := 0 }
      else { p with quantity := q }

/-- Association-list lookup, first match wins (Python `dict` access). -/
def alookup {α : Type} : List (String × α) → String → Option α
  | [], _ => none
  | kv :: rest, t => if kv.1 = t then some kv.2 else alookup rest t

/-- Python `int()` applied to a rational: truncation toward zero. -/
def pyInt (x : ℚ) : Int := if 0 ≤ x then ⌊x⌋ else -⌊-x⌋

/-- Portfolio state (`Portfolio` dataclass in `engine.py`). -/
structure Portfolio where
  initial_cash : ℚ
  cash : ℚ
  positions : List (String × Position)
  trades : List Trade
  commission_rate : ℚ
deriving DecidableEq, Repr

/-- Fresh portfolio as produced by `Portfolio.__post_init__`. -/
def Portfolio.init (initial_cash commission_rate : ℚ) : Portfolio :=
  { initial_cash := initial_cash, cash := initial_cash, positions := [],
    trades := [], commission_rate := commission_rate }

/-- Model of `Portfolio.get_position`: get-or-create; a missing ticker inserts a fresh
`Position(ticker)` (quantity 0, avg_cost 0) at the end of the map. Returns the
possibly-extended portfolio together with the looked-up position. -/
def Portfolio.get_position (pf : Portfolio) (ticker : String) : Portfolio × Position :=
  match alookup pf.positions ticker with
  | some pos => (pf, pos)
  | none =>
      ({ pf with positions := pf.positions ++ [(ticker, { ticker := ticker })] },
       { ticker := ticker })

/-- Replace the stored position for `t` (in-place mutation of the dict entry). -/
def setPos (ps : List (String × Position)) (t : String) (p : Position) :
    List (String × Position) :=
  ps.map (fun kv => if kv.1 = t then (kv.1, p) else kv)

/-- The limit-order rejection test at the top of `execute_order`: a buy limit
below the market or a sell limit above it blocks the order. -/
def limitBlocked (o : Order) (current_price : ℚ) : Bool :=
  match o.order_type, o.side, o.limit_price with
  | OrderType.limit, Side.buy, some lp => decide (lp < current_price)
  | OrderType.limit, Side.sell, some lp => decide (current_price < lp)
  | _, _, _ => false

/-- Shared tail of `execute_order` (lines 146–169 of `engine.py`): build the
trade from the executed quantity and the *caller-supplied* commission, update
cash by `trade.value`, update the position, append to the trade log. The
commission argument is essential: the sell path passes the commission computed
from the original requested quantity. -/
def Portfolio.settle (pf : Portfolio) (ticker : String) (side : Side) (q : Int)
    (price commission : ℚ) : Portfolio × Option Trade :=
  let trade : Trade :=
    { ticker := ticker, side := side, quantity := q, price := price,
      commission := commission }
  let cash' :=
    match side with
    | Side.buy => pf.cash - trade.value
    | Side.sell => pf.cash + trade.value
  let pr := Portfolio.get_position { pf with cash := cash' } ticker
  let pf2 := { pr.1 with positions := setPos pr.1.positions ticker (pr.2.update trade) }
  ({ pf2 with trades := pf2.trades ++ [trade] }, some trade)

/-- Model of `Portfolio.execute_order` (lines 113–169 of `engine.py`). Returns the
updated portfolio and the executed trade, or `none` where the source returns
`None`. Faithful points: the buy clamp recomputes trade value and commission
for the reduced quantity, while the sell clamp does NOT recompute the
commission. -/
def Portfolio.execute_order (pf : Portfolio) (o : Order) (current_price : ℚ) :
    Portfolio × Option Trade :=
  if limitBlocked o current_price then (pf, none)
  else
    let trade_value : ℚ := (o.quantity : ℚ) * current_price
    let commission : ℚ := trade_value * pf.commission_rate
    match o.side with
    | Side.buy =>
        if pf.cash < trade_value + commission then
          let max_quantity : Int := pyInt ((pf.cash - commission) / current_price)
          if max_quantity ≤ 0 then (pf, none)
          else
            Portfolio.settle pf o.ticker Side.buy max_quantity current_price
              ((max_quantity : ℚ) * current_price * pf.commission_rate)
        else Portfolio.settle pf o.ticker Side.buy o.quantity current_price commission
    | Side.sell =>
        let pr := pf.get_position o.ticker
        let q : Int := if pr.2.quantity < o.quantity then pr.2.quantity else o.quantity
        if q ≤ 0 then (pr.1, none)
        else Portfolio.settle pr.1 o.ticker Side.sell q current_price commission

/-- Per-position contribution used by the valuation queries: a position counts
only if its ticker has a price and its quantity is positive. -/
def posContribution (prices : List (String × ℚ)) (kv : String × Position) : ℚ :=
  match alookup prices kv.1 with
  | some p => if 0 < kv.2.quantity then (kv.2.quantity : ℚ) * p else 0
  | none => 0

/-- Fold step of `get_total_value` / `get_positions_value`. -/
def posValueStep (prices : List (String × ℚ)) (acc : ℚ) (kv : String × Position) : ℚ :=
  match alookup prices kv.1 with
  | some p => if 0 < kv.2.quantity then acc + (kv.2.quantity : ℚ) * p else acc
  | none => acc

/-- Model of `Portfolio.get_total_value`: cash plus marked-to-market positions; tickers
absent from the price map are skipped. -/
def Portfolio.get_total_value (pf : Portfolio) (prices : List (String × ℚ)) : ℚ :=
  pf.positions.foldl (posValueStep prices) pf.cash

/-- Model of `Portfolio.get_positions_value`: same sum started from zero. -/
def Portfolio.get_positions_value (pf : Portfolio) (prices : List (String × ℚ)) : ℚ :=
  pf.positions.foldl (posValueStep prices) 0

/-- Model of `BacktestResults.total_return`: (final − initial)/initial. -/
def total_return (final initial_cash : ℚ) : ℚ := (final - initial_cash) / initial_cash

/-- Scenario 1 start: cash 100000, commission rate 0.001. -/
def c2Portfolio : Portfolio := Portfolio.init 100000 (1/1000)

/-- Scenario 1 buy order: 100 units market buy. -/
def c2Buy : Order := { ticker := "A", side := Side.buy, quantity := 100 }

/-- Scenario 1 sell order: 100 units market sell. -/
def c2Sell : Order := { ticker := "A", side := Side.sell, quantity := 100 }

/-- Portfolio state after the Scenario 1 buy. -/
def c2AfterBuy : Portfolio := (c2Portfolio.execute_order c2Buy 150).1

/-- Portfolio state after the Scenario 1 sell. -/
def c2AfterSell : Portfolio := (c2AfterBuy.execute_order c2Sell 160).1

/-- C1 failing input: cash 0, one unit of "A" held, commission rate 0.001. -/
def c1Portfolio : Portfolio :=
  { initial_cash := 0, cash := 0,
    positions := [("A", { ticker := "A", quantity := 1, avg_cost := 100 })],
    trades := [], commission_rate := 1/1000 }

/-- C1 failing order: market sell of 10000 units against the 1-unit position. -/
def c1Order : Order := { ticker := "A", side := Side.sell, quantity := 10000 }

/-- C3 concrete input: cash 1000, commission rate 0.001. -/
def c3Portfolio : Portfolio := Portfolio.init 1000 (1/1000)

/-- C3 concrete order: market buy of 10 units. -/
def c3Order : Order := { ticker := "A", side := Side.buy, quantity := 10 }

/-- C10 witness input: a limit buy whose limit (50) is below the market (100). -/
def c10Portfolio : Portfolio := Portfolio.init 500 (1/1000)

/-- C10 witness order. -/
def c10Order : Order :=
  { ticker := "A", side := Side.buy, quantity := 3, order_type := OrderType.limit,
    limit_price := some 50 }

/-- The portfolio after a buy of Q followed by a full sell of Q (the C9
round trip). -/
def roundTrip (pf : Portfolio) (t : String) (Q : Int) (p1 p2 : ℚ) : Portfolio :=
  ((pf.execute_order ⟨t, Side.buy, Q, OrderType.market, none⟩ p1).1.execute_order
    ⟨t, Side.sell, Q, OrderType.market, none⟩ p2).1

/-- C9 witness input portfolio: cash 1,000,000, commission rate 0.001, no
positions. -/
def c9Portfolio : Portfolio := Portfolio.init 1000000 (1/1000)

/-- Accumulator form of the pandas expanding maximum. -/
def expandingMaxAux (m : ℚ) : List ℚ → List ℚ
  | [] => []
  | v :: vs => max m v :: expandingMaxAux (max m v) vs

/-- pandas `Series.expanding(min_periods=1).max()`: the running maximum. -/
def expandingMax : List ℚ → List ℚ
  | [] => []
  | v :: vs => expandingMaxAux v (v :: vs)

/-- pandas `Series.min()`; `none` models NaN on an empty series. -/
def pandasMin : List ℚ → Option ℚ
  | [] => none
  | x :: xs => some (xs.foldl min x)

/-- Model of `BacktestResults.max_drawdown`: minimum of (value − running peak)/peak. -/
def max_drawdown (values : List ℚ) : Option ℚ :=
  pandasMin (values.zipWith (fun v p => (v - p) / p) (expandingMax values))

/-- Spec-side running peak at day i: the maximum of `values[0..i]`. -/
def peakAt (values : List ℚ) (i : Nat) : ℚ :=
  match values.take (i + 1) with
  | [] => 0
  | v :: vs => vs.foldl max v

/-- Spec-side drawdown at day i: (value_i − peak_i)/peak_i. -/
def drawdownAt (values : List ℚ) (i : Nat) : ℚ :=
  (values.getD i 0 - peakAt values i) / peakAt values i

/-- The Scenario 4 value series. -/
def c7Values : List ℚ := [100000, 110000, 90000, 95000]

/-- Model of `BacktestResults.cagr` over the daily total-value series: reads the final
value first (`none` models the IndexError raised on an empty series), then
returns (final/initial)^(1/(days/252)) − 1, or 0 if `days/252 ≤ 0` (a branch
that is unreachable once the final value was read). -/
noncomputable def cagr (values : List ℚ) (initial_cash : ℚ) : Option ℝ :=
  match values.getLast? with
  | none => none
  | some final =>
      let days : ℕ := values.length
      let years : ℚ := (days : ℚ) / 252
      if years ≤ 0 then some 0
      else some ((((final / initial_cash : ℚ)) : ℝ) ^ (((1 / years : ℚ)) : ℝ) - 1)

/-- pandas `series.rolling(w).mean()` evaluated at 0-based row `i`: defined
(`some`) only when at least `w` rows end at `i`; otherwise NaN (`none`). -/
def rollingMeanAt (w : Nat) (a : List ℚ) (i : Nat) : Option ℚ :=
  if w ≤ i + 1 ∧ i < a.length then some (((a.drop (i + 1 - w)).take w).sum / (w : ℚ))
  else none

/-- numpy/pandas `x > y` on possibly-NaN scalars: any comparison with NaN
(`none`) is False. -/
def optGT : Option ℚ → Option ℚ → Bool
  | some x, some y => decide (y < x)
  | _, _ => false

/-- Parameters of `MovingAverageCrossover`. -/
structure MovingAverageCrossover where
  tickers : List String
  short_window : Nat
  long_window : Nat
  position_size : ℚ

/-- Loop body of `MovingAverageCrossover.generate_signals` for one ticker:
`series` is the lookback column, `posQty` the held quantity, `price` the
day's price (`prices.get(ticker, 0)`). The `isna` guard checks only the
current short/long means, exactly as in the source; the prior-day means flow
unchecked into the NaN-comparison semantics of `optGT`. -/
def macTickerOrders (s : MovingAverageCrossover) (t : String) (series : List ℚ)
    (posQty : Int) (cash price : ℚ) : List Order :=
  let n := series.length
  let short_ma := rollingMeanAt s.short_window series (n - 1)
  let long_ma := rollingMeanAt s.long_window series (n - 1)
  let prev_short_ma := rollingMeanAt s.short_window series (n - 2)
  let prev_long_ma := rollingMeanAt s.long_window series (n - 2)
  if short_ma.isNone || long_ma.isNone then []
  else
    let current_signal := optGT short_ma long_ma
    let prev_signal := optGT prev_short_ma prev_long_ma
    if current_signal && !prev_signal then
      if posQty = 0 then
        let quantity := pyInt (cash * s.position_size / price)
        if 0 < quantity then [{ ticker := t, side := Side.buy, quantity := quantity }]
        else []
      else []
    else if !current_signal && prev_signal then
      if 0 < posQty then [{ ticker := t, side := Side.sell, quantity := posQty }] else []
    else []

/-- Row count of `BacktestEngine.get_lookback(date, periods)`:
`prices.iloc[max(0, idx - periods) : idx + 1]` over a panel of `panelRows`
rows (ℕ subtraction saturates like the `max(0, ...)` in the source). -/
def get_lookback_len (panelRows idx periods : Nat) : Nat :=
  min (idx + 1) panelRows - (idx - periods)

/-- One column of the lookback slice. -/
def lookback_col (col : List ℚ) (idx periods : Nat) : List ℚ :=
  (col.take (idx + 1)).drop (idx - periods)

/-- Model of `MovingAverageCrossover.generate_signals`: guard `len(lookback) <
long_window`, then the per-ticker loop (tickers missing from the panel are
skipped; each ticker contributes its own orders independently; the
`get_position` side effect on the portfolio does not affect any signal and is
abstracted by the `posQty` query). -/
def MovingAverageCrossover.generate_signals (s : MovingAverageCrossover)
    (panel : List (String × List ℚ)) (panelRows idx : Nat)
    (prices : List (String × ℚ)) (posQty : String → Int) (cash : ℚ) : List Order :=
  if get_lookback_len panelRows idx (s.long_window + 1) < s.long_window then []
  else
    (s.tickers.map (fun t =>
      match alookup panel t with
      | none => []
      | some col =>
          macTickerOrders s t (lookback_col col idx (s.long_window + 1)) (posQty t) cash
            ((alookup prices t).getD 0))).flatten

/-- The C5 failing configuration: short 2, long 3, position size 0.2. -/
def c5Strategy : MovingAverageCrossover :=
  { tickers := ["A"], short_window := 2, long_window := 3, position_size := 1/5 }

/-- Within one `CombinedStrategy.generate_signals` step the date, prices,
portfolio and engine are fixed, so a (possibly stateful) Python sub-strategy
is fully described by the sequence of order lists returned by its successive
`generate_signals` calls: index 0 is the tally poll, index k ≥ 1 the poll made
while processing the k-th buy-qualifying ticker. -/
def PolledStrategy := Nat → List Order

/-- Tally loop: `all_orders[ticker][side] += 1`, with dict insertion order. -/
def tallyOrder (acc : List (String × Nat × Nat)) (o : Order) : List (String × Nat × Nat) :=
  if acc.any (fun e => decide (e.1 = o.ticker)) then
    acc.map (fun e =>
      if e.1 = o.ticker then
        (e.1, (match o.side with | Side.buy => e.2.1 + 1 | Side.sell => e.2.1),
          (match o.side with | Side.sell => e.2.2 + 1 | Side.buy => e.2.2))
      else e)
  else
    acc ++ [(o.ticker, (match o.side with | Side.buy => 1 | Side.sell => 0),
      (match o.side with | Side.sell => 1 | Side.buy => 0))]

/-- Python `max()` over a list; `none` models the ValueError raised on an
empty sequence. -/
def listMax : List Int → Option Int
  | [] => none
  | x :: xs => some (xs.foldl max x)

/-- Filter loop of `CombinedStrategy.generate_signals`: for each tallied
ticker (dict order), a buy meeting the threshold re-polls every sub-strategy
(advancing the shared call counter `round`) and takes the largest proposed
buy quantity — `Except.error` models the ValueError when that re-poll
proposes nothing; a qualifying sell emits the held quantity if positive. -/
def combinedLoop (strats : List PolledStrategy) (threshold : Nat) (held : String → Int) :
    List (String × Nat × Nat) → Nat → Except Unit (List Order)
  | [], _ => Except.ok []
  | e :: rest, round =>
      if threshold ≤ e.2.1 then
        let polled := (strats.map (fun s => s round)).flatten
        let qs := (polled.filter
          (fun o => decide (o.ticker = e.1) && decide (o.side = Side.buy))).map Order.quantity
        match listMax qs with
        | none => Except.error ()
        | some q =>
            match combinedLoop strats threshold held rest (round + 1) with
            | Except.error u => Except.error u
            | Except.ok os => Except.ok ({ ticker := e.1, side := Side.buy, quantity := q } :: os)
      else if threshold ≤ e.2.2 then
        match combinedLoop strats threshold held rest round with
        | Except.error u => Except.error u
        | Except.ok os =>
            if 0 < held e.1 then
              Except.ok ({ ticker := e.1, side := Side.sell, quantity := held e.1 } :: os)
            else Except.ok os
      else combinedLoop strats threshold held rest round

/-- Model of `CombinedStrategy.generate_signals`: tally a first poll of every
sub-strategy, then filter by the agreement threshold (`len(strategies)` if
`require_all` else `min_agree`). `held` abstracts
`portfolio.get_position(ticker).quantity` in the sell branch. -/
def CombinedStrategy.generate_signals (strats : List PolledStrategy) (require_all : Bool)
    (min_agree : Nat) (held : String → Int) : Except Unit (List Order) :=
  let first := (strats.map (fun s => s 0)).flatten
  let tallies := first.foldl tallyOrder []
  let threshold := if require_all then strats.length else min_agree
  combinedLoop strats threshold held tallies 1

/-- Mutable state of a `BuyAndHold` instance. -/
structure BuyAndHoldState where
  tickers : List String
  weights : List (String × ℚ)
  bought : Bool

/-- Model of `BuyAndHold.__init__` with no explicit weights: equal weighting. -/
def BuyAndHoldState.init (tickers : List String) : BuyAndHoldState :=
  { tickers := tickers,
    weights := tickers.map (fun t => (t, 1 / (tickers.length : ℚ))), bought := false }

/-- Model of `BuyAndHold.generate_signals` at fixed prices and cash: first call emits
the weighted buys and flips `bought`; later calls return nothing. -/
def BuyAndHoldState.generate_signals (prices : List (String × ℚ)) (cash : ℚ)
    (s : BuyAndHoldState) : BuyAndHoldState × List Order :=
  if s.bought then (s, [])
  else
    let orders := (s.tickers.map (fun t =>
      match alookup prices t with
      | none => []
      | some p =>
          let weight := (alookup s.weights t).getD (1 / (s.tickers.length : ℚ))
          let quantity := pyInt (cash * weight / p)
          if 0 < quantity then
            [({ ticker := t, side := Side.buy, quantity := quantity } : Order)]
          else [])).flatten
    ({ s with bought := true }, orders)

/-- Output of the (n+1)-th successive call of a stateful strategy. -/
def callOutputs {σ : Type} (step : σ → σ × List Order) : σ → Nat → List Order
  | s, 0 => (step s).2
  | s, n + 1 => callOutputs step (step s).1 n

/-- The C4 sub-strategy: `BuyAndHold(["A"])` polled at prices {A: 150} with
cash 100000. Its first call proposes BUY 666 A; every later call is empty. -/
def c4Sub : PolledStrategy :=
  callOutputs (BuyAndHoldState.generate_signals [("A", 150)] 100000)
    (BuyAndHoldState.init ["A"])

-- ======================================================================
-- Lemmas and claim theorems
-- ======================================================================

lemma pyInt_nonpos_iff (x : ℚ) : pyInt x ≤ 0 ↔ ⌊x⌋ ≤ 0 := by
  unfold pyInt
  split_ifs with h
  · exact Iff.rfl
  · push_neg at h
    simp only [neg_nonpos]
    constructor
    · intro _; exact Int.floor_nonpos h.le
    · intro _; exact Int.floor_nonneg.mpr (by linarith)

lemma pyInt_eq_floor_of_floor_pos (x : ℚ) (h : 0 < ⌊x⌋) : pyInt x = ⌊x⌋ := by
  have h1 : (1 : ℚ) ≤ x := by exact_mod_cast Int.le_floor.mp h
  unfold pyInt
  rw [if_pos (by linarith)]

lemma alookup_append_of_some {α : Type} (ps qs : List (String × α)) (t : String) (v : α)
    (h : alookup ps t = some v) : alookup (ps ++ qs) t = some v := by
  induction ps with
  | nil => simp [alookup] at h
  | cons kv rest ih =>
      by_cases hkv : kv.1 = t
      · simpa [alookup, hkv] using by simpa [alookup, hkv] using h
      · simp only [alookup, List.cons_append, if_neg hkv] at h ⊢
        exact ih h

lemma alookup_append_singleton_of_none {α : Type} (ps : List (String × α)) (t : String) (v : α)
    (h : alookup ps t = none) : alookup (ps ++ [(t, v)]) t = some v := by
  induction ps with
  | nil => simp [alookup]
  | cons kv rest ih =>
      by_cases hkv : kv.1 = t
      · simp [alookup, hkv] at h
      · simp only [alookup, List.cons_append, if_neg hkv] at h ⊢
        exact ih h

lemma alookup_setPos_self (ps : List (String × Position)) (t : String) (p : Position) :
    alookup (setPos ps t p) t = (alookup ps t).map (fun _ => p) := by
  induction ps with
  | nil => simp [alookup, setPos]
  | cons kv rest ih =>
      by_cases hkv : kv.1 = t
      · simp [alookup, setPos, hkv]
      · simp only [setPos, List.map_cons, if_neg hkv, alookup] at ih ⊢
        exact ih

/-- C1: the claimed invariant fails on the code. Starting from a portfolio
satisfying every hypothesis of the claim (cash 0 ≥ 0, one position of
quantity 1 ≥ 0, commission rate 0.001 ∈ [0,1)), a market sell of 10000 units
at price 100 is clamped to 1 unit but keeps the commission computed for the
originally requested 10000 units (1000), so cash becomes 100 − 1000 = −900,
violating cash ≥ 0. -/
theorem clamped_sell_drives_cash_negative :
    c1Portfolio.cash = 0 ∧ c1Portfolio.commission_rate = 1/1000 ∧
    alookup c1Portfolio.positions "A" =
      some { ticker := "A", quantity := 1, avg_cost := 100 } ∧
    (c1Portfolio.execute_order c1Order 100).2 =
      some { ticker := "A", side := Side.sell, quantity := 1, price := 100,
             commission := 1000 } ∧
    (c1Portfolio.execute_order c1Order 100).1.cash = -900 := by
  refine ⟨rfl, rfl, ?_, ?_, ?_⟩ <;>
    norm_num [c1Portfolio, c1Order, Portfolio.execute_order, Portfolio.settle,
      Portfolio.get_position, alookup, setPos, limitBlocked, Trade.value, Position.update]

/-- C2: Scenario 1. Buy 100 at 150 (trade 100×150 = 15000, commission 15,
cash 84985, position 100 @ 150), then sell 100 at 160 (trade 100×160 = 16000,
commission 16, cash 84985 + (16000 − 16) = 100969, position reset to 0/0),
total return (100969 − 100000)/100000 = 0.969%. -/
theorem scenario_basic_trade_and_commission :
    (c2Portfolio.execute_order c2Buy 150).2 =
      some { ticker := "A", side := Side.buy, quantity := 100, price := 150,
             commission := 15 } ∧
    (100 : ℚ) * 150 = 15000 ∧
    c2AfterBuy.cash = 84985 ∧
    alookup c2AfterBuy.positions "A" =
      some { ticker := "A", quantity := 100, avg_cost := 150 } ∧
    (c2AfterBuy.execute_order c2Sell 160).2 =
      some { ticker := "A", side := Side.sell, quantity := 100, price := 160,
             commission := 16 } ∧
    (100 : ℚ) * 160 = 16000 ∧
    c2AfterSell.cash = 84985 + (16000 - 16) ∧
    c2AfterSell.cash = 100969 ∧
    alookup c2AfterSell.positions "A" =
      some { ticker := "A", quantity := 0, avg_cost := 0 } ∧
    total_return (c2AfterSell.get_total_value [("A", 160)]) 100000 = 969 / 100000 := by
  refine ⟨?_, by norm_num, ?_, ?_, ?_, by norm_num, ?_, ?_, ?_, ?_⟩ <;>
    norm_num [c2AfterSell, c2AfterBuy, c2Portfolio, c2Buy, c2Sell, Portfolio.execute_order,
      Portfolio.settle, Portfolio.init, Portfolio.get_position, alookup, setPos, limitBlocked,
      Trade.value, Position.update, Portfolio.get_total_value, posValueStep, total_return]

/-- C3: a market buy whose full cost (quantity×price plus the commission for
that quantity) exceeds cash is re-sized to ⌊(cash − commission)/price⌋, with
the commission taken from the originally requested quantity; if that quantity
is ≤ 0 no trade happens, otherwise the trade executes at the reduced quantity
with value and commission recomputed for it. -/
theorem execute_order_clamps_unaffordable_buy (pf : Portfolio) (o : Order) (cp : ℚ)
    (hside : o.side = Side.buy) (htype : o.order_type = OrderType.market)
    (hp : 0 < cp)
    (hover : pf.cash < (o.quantity : ℚ) * cp + (o.quantity : ℚ) * cp * pf.commission_rate) :
    (⌊(pf.cash - (o.quantity : ℚ) * cp * pf.commission_rate) / cp⌋ ≤ 0 →
        pf.execute_order o cp = (pf, none)) ∧
    ∀ m : Int, 0 < m →
      m = ⌊(pf.cash - (o.quantity : ℚ) * cp * pf.commission_rate) / cp⌋ →
      (pf.execute_order o cp).2 =
        some { ticker := o.ticker, side := Side.buy, quantity := m, price := cp,
               commission := (m : ℚ) * cp * pf.commission_rate } := by
  obtain ⟨tk, sd, qty, ot, lp⟩ := o
  simp only at hside htype
  subst hside htype
  have hblock : limitBlocked (⟨tk, Side.buy, qty, OrderType.market, lp⟩ : Order) cp = false := by
    simp [limitBlocked]
  constructor
  · intro hfl
    have hq : pyInt ((pf.cash - (qty : ℚ) * cp * pf.commission_rate) / cp) ≤ 0 :=
      (pyInt_nonpos_iff _).mpr hfl
    simp only [Portfolio.execute_order, hblock, Bool.false_eq_true, if_false,
      if_pos hover, if_pos hq]
  · intro m hm hmf
    have hq : pyInt ((pf.cash - (qty : ℚ) * cp * pf.commission_rate) / cp) = m := by
      rw [hmf]; exact pyInt_eq_floor_of_floor_pos _ (hmf ▸ hm)
    have hq' : ¬ pyInt ((pf.cash - (qty : ℚ) * cp * pf.commission_rate) / cp) ≤ 0 := by
      rw [hq]; exact not_le.mpr hm
    simp only [Portfolio.execute_order, hblock, Bool.false_eq_true, if_false,
      if_pos hover, if_neg hq', Portfolio.settle, hq]
    rw [if_neg (not_le.mpr hm)]

/-- Witness for the C3 theorem at the claim's concrete input: cash 1000,
commission rate 0.001, requested 10 units at price 150; the executed quantity
is 6 with commission 6×150×0.001 = 0.9. -/
theorem execute_order_clamps_unaffordable_buy_witness :
    (c3Portfolio.execute_order c3Order 150).2 =
      some { ticker := "A", side := Side.buy, quantity := 6, price := 150,
             commission := 9/10 } := by
  have h := (execute_order_clamps_unaffordable_buy c3Portfolio c3Order 150 rfl rfl
      (by norm_num)
      (by norm_num [c3Portfolio, c3Order, Portfolio.init])).2 6 (by norm_num)
      (by norm_num [c3Portfolio, c3Order, Portfolio.init])
  norm_num [c3Portfolio, c3Order, Portfolio.init] at h
  exact h

/-- C10: whenever `execute_order` returns no trade, cash, the trade log and
every pre-existing position are unchanged; the only possible state change is
that a sell on a previously unreferenced ticker inserts a fresh
quantity-0/avg-0 position entry. -/
theorem no_trade_preserves_state (pf : Portfolio) (o : Order) (cp : ℚ)
    (h : (pf.execute_order o cp).2 = none) :
    (pf.execute_order o cp).1.cash = pf.cash ∧
    (pf.execute_order o cp).1.trades = pf.trades ∧
    (∀ t p, alookup pf.positions t = some p →
        alookup (pf.execute_order o cp).1.positions t = some p) ∧
    ((pf.execute_order o cp).1.positions = pf.positions ∨
      (o.side = Side.sell ∧ alookup pf.positions o.ticker = none ∧
        (pf.execute_order o cp).1.positions =
          pf.positions ++ [(o.ticker, { ticker := o.ticker })])) := by
  obtain ⟨tk, sd, qty, ot, lp⟩ := o
  cases hB : limitBlocked ⟨tk, sd, qty, ot, lp⟩ cp with
  | true =>
      have hE : Portfolio.execute_order pf ⟨tk, sd, qty, ot, lp⟩ cp = (pf, none) := by
        simp only [Portfolio.execute_order, hB, if_true]
      rw [hE]
      exact ⟨rfl, rfl, fun t p hp => hp, Or.inl rfl⟩
  | false =>
      cases sd with
      | buy =>
          by_cases hc : pf.cash < (qty : ℚ) * cp + (qty : ℚ) * cp * pf.commission_rate
          · by_cases hm : pyInt ((pf.cash - (qty : ℚ) * cp * pf.commission_rate) / cp) ≤ 0
            · have hE : Portfolio.execute_order pf ⟨tk, Side.buy, qty, ot, lp⟩ cp =
                  (pf, none) := by
                simp only [Portfolio.execute_order, hB, Bool.false_eq_true, if_false,
                  if_pos hc, if_pos hm]
              rw [hE]
              exact ⟨rfl, rfl, fun t p hp => hp, Or.inl rfl⟩
            · exfalso
              simp only [Portfolio.execute_order, hB, Bool.false_eq_true, if_false,
                if_pos hc, if_neg hm, Portfolio.settle] at h
              exact Option.noConfusion h
          · exfalso
            simp only [Portfolio.execute_order, hB, Bool.false_eq_true, if_false,
              if_neg hc, Portfolio.settle] at h
            exact Option.noConfusion h
      | sell =>
          rcases halook : alookup pf.positions tk with _ | pos
          · have hgp : Portfolio.get_position pf tk =
                ({ pf with positions := pf.positions ++ [(tk, { ticker := tk })] },
                 { ticker := tk }) := by
              simp only [Portfolio.get_position, halook]
            have hq : (if ({ ticker := tk } : Position).quantity < qty
                then ({ ticker := tk } : Position).quantity else qty) ≤ 0 := by
              by_cases h0 : (0 : Int) < qty
              · simpa using le_of_eq (if_pos h0)
              · simpa [h0] using not_lt.mp h0
            have hE : Portfolio.execute_order pf ⟨tk, Side.sell, qty, ot, lp⟩ cp =
                ({ pf with positions := pf.positions ++ [(tk, { ticker := tk })] }, none) := by
              simp only [Portfolio.execute_order, hB, Bool.false_eq_true, if_false, hgp]
              rw [if_pos hq]
            rw [hE]
            exact ⟨rfl, rfl, fun t p hp => alookup_append_of_some _ _ _ _ hp,
              Or.inr ⟨rfl, rfl, rfl⟩⟩
          · have hgp : Portfolio.get_position pf tk = (pf, pos) := by
              simp only [Portfolio.get_position, halook]
            by_cases hq : (if pos.quantity < qty then pos.quantity else qty) ≤ 0
            · have hE : Portfolio.execute_order pf ⟨tk, Side.sell, qty, ot, lp⟩ cp =
                  (pf, none) := by
                simp only [Portfolio.execute_order, hB, Bool.false_eq_true, if_false, hgp]
                rw [if_pos hq]
              rw [hE]
              exact ⟨rfl, rfl, fun t p hp => hp, Or.inl rfl⟩
            · exfalso
              simp only [Portfolio.execute_order, hB, Bool.false_eq_true, if_false, hgp,
                if_neg hq, Portfolio.settle] at h
              exact Option.noConfusion h

/-- Witness for the C10 theorem: a limit buy at limit 50 against market price
100 is rejected with no state change. -/
theorem no_trade_preserves_state_witness :
    (c10Portfolio.execute_order c10Order 100).2 = none ∧
    (c10Portfolio.execute_order c10Order 100).1.cash = c10Portfolio.cash ∧
    (c10Portfolio.execute_order c10Order 100).1.trades = c10Portfolio.trades := by
  have hnone : (c10Portfolio.execute_order c10Order 100).2 = none := by
    norm_num [c10Portfolio, c10Order, Portfolio.init, Portfolio.execute_order, limitBlocked]
  exact ⟨hnone, (no_trade_preserves_state c10Portfolio c10Order 100 hnone).1,
    (no_trade_preserves_state c10Portfolio c10Order 100 hnone).2.1⟩

lemma execute_buy_no_clamp (pf : Portfolio) (t : String) (Q : Int) (p1 : ℚ)
    (hcash : (Q : ℚ) * p1 + (Q : ℚ) * p1 * pf.commission_rate ≤ pf.cash) :
    pf.execute_order ⟨t, Side.buy, Q, OrderType.market, none⟩ p1 =
      pf.settle t Side.buy Q p1 ((Q : ℚ) * p1 * pf.commission_rate) := by
  have hb : limitBlocked (⟨t, Side.buy, Q, OrderType.market, none⟩ : Order) p1 = false := by
    simp [limitBlocked]
  simp only [Portfolio.execute_order, hb, Bool.false_eq_true, if_false]
  rw [if_neg (not_lt.mpr hcash)]

lemma alookup_settle (pf : Portfolio) (tk : String) (sd : Side) (q : Int)
    (price comm : ℚ) :
    alookup ((pf.settle tk sd q price comm).1).positions tk =
      some (((pf.get_position tk).2).update ⟨tk, sd, q, price, comm⟩) := by
  rcases halook : alookup pf.positions tk with _ | pos
  · simp only [Portfolio.settle, Portfolio.get_position, halook]
    rw [alookup_setPos_self, alookup_append_singleton_of_none _ _ _ halook]
    rfl
  · simp only [Portfolio.settle, Portfolio.get_position, halook]
    rw [alookup_setPos_self, halook]
    rfl

/-- C9: buying Q > 0 units at p1 with enough cash that no clamping occurs
(starting flat in that instrument), then selling the same Q at any positive
p2, returns the position to quantity 0 and average cost 0. -/
theorem round_trip_returns_flat (pf : Portfolio) (t : String) (Q : Int) (p1 p2 : ℚ)
    (hQ : 0 < Q) (hp1 : 0 < p1) (hp2 : 0 < p2)
    (hflat : ∀ pos, alookup pf.positions t = some pos → pos.quantity = 0)
    (hcash : (Q : ℚ) * p1 + (Q : ℚ) * p1 * pf.commission_rate ≤ pf.cash) :
    (alookup (roundTrip pf t Q p1 p2).positions t).map Position.quantity = some 0 ∧
    (alookup (roundTrip pf t Q p1 p2).positions t).map Position.avg_cost = some 0 := by
  have h1 := execute_buy_no_clamp pf t Q p1 hcash
  have hl1 := alookup_settle pf t Side.buy Q p1 ((Q : ℚ) * p1 * pf.commission_rate)
  set posB := ((pf.get_position t).2).update ⟨t, Side.buy, Q, p1,
    (Q : ℚ) * p1 * pf.commission_rate⟩ with hposB
  set pf1 := (pf.settle t Side.buy Q p1 ((Q : ℚ) * p1 * pf.commission_rate)).1 with hpf1
  have hq1 : posB.quantity = Q := by
    rcases halook : alookup pf.positions t with _ | pos
    · simp [hposB, Portfolio.get_position, halook, Position.update, hQ]
    · have h0 : pos.quantity = 0 := hflat pos halook
      simp [hposB, Portfolio.get_position, halook, Position.update, h0, hQ]
  have hb2 : limitBlocked (⟨t, Side.sell, Q, OrderType.market, none⟩ : Order) p2 = false := by
    simp [limitBlocked]
  have hgp2 : pf1.get_position t = (pf1, posB) := by
    simp only [Portfolio.get_position, hl1]
  have h2 : pf1.execute_order ⟨t, Side.sell, Q, OrderType.market, none⟩ p2 =
      pf1.settle t Side.sell Q p2 ((Q : ℚ) * p2 * pf1.commission_rate) := by
    simp only [Portfolio.execute_order, hb2, Bool.false_eq_true, if_false, hgp2, hq1]
    rw [if_neg (lt_irrefl Q), if_neg (not_le.mpr hQ)]
  have hl2 := alookup_settle pf1 t Side.sell Q p2 ((Q : ℚ) * p2 * pf1.commission_rate)
  rw [hgp2] at hl2
  have hupd : posB.update ⟨t, Side.sell, Q, p2, (Q : ℚ) * p2 * pf1.commission_rate⟩ =
      { posB with quantity := 0, avg_cost := 0 } := by
    simp [Position.update, hq1]
  have hfinal : roundTrip pf t Q p1 p2 =
      (pf1.settle t Side.sell Q p2 ((Q : ℚ) * p2 * pf1.commission_rate)).1 := by
    rw [roundTrip, h1, ← hpf1, h2]
  rw [hfinal, hl2, hupd]
  exact ⟨rfl, rfl⟩

/-- Witness for the C9 theorem: buy 5 units of "A" at 10, sell all 5 at 20;
the position ends at quantity 0 and average cost 0. -/
theorem round_trip_returns_flat_witness :
    (alookup (roundTrip c9Portfolio "A" 5 10 20).positions "A").map Position.quantity =
      some 0 ∧
    (alookup (roundTrip c9Portfolio "A" 5 10 20).positions "A").map Position.avg_cost =
      some 0 :=
  round_trip_returns_flat c9Portfolio "A" 5 10 20 (by norm_num) (by norm_num) (by norm_num)
    (by intro pos hp; simp [c9Portfolio, Portfolio.init, alookup] at hp)
    (by norm_num [c9Portfolio, Portfolio.init])

lemma posValueStep_eq (prices : List (String × ℚ)) (acc : ℚ) (kv : String × Position) :
    posValueStep prices acc kv = acc + posContribution prices kv := by
  unfold posValueStep posContribution
  cases h : alookup prices kv.1
  · simp
  · split_ifs <;> simp

lemma foldl_posValueStep (prices : List (String × ℚ)) (l : List (String × Position)) :
    ∀ acc : ℚ, l.foldl (posValueStep prices) acc =
      acc + (l.map (posContribution prices)).sum := by
  induction l with
  | nil => intro acc; simp
  | cons kv rest ih =>
      intro acc
      rw [List.foldl_cons, posValueStep_eq, ih, List.map_cons, List.sum_cons]
      ring

lemma posContribution_sum_filter (prices : List (String × ℚ)) (l : List (String × Position)) :
    (l.map (posContribution prices)).sum =
      ((l.filter
          (fun kv => ((alookup prices kv.1).isSome && decide (0 < kv.2.quantity)))).map
        (fun kv => (kv.2.quantity : ℚ) * ((alookup prices kv.1).getD 0))).sum := by
  induction l with
  | nil => rfl
  | cons kv rest ih =>
      cases h : alookup prices kv.1
      · simp [posContribution, h, List.filter_cons, ih]
      · by_cases hq : 0 < kv.2.quantity <;>
          simp [posContribution, h, hq, List.filter_cons, ih]

/-- C8: total value equals cash plus position value; the sums range exactly
over the positions whose ticker is present in the price map and whose quantity
is positive (absent tickers are skipped); and the queries are pure (the Python
bodies only read state), so repeated calls agree. -/
theorem valuation_queries (pf : Portfolio) (prices : List (String × ℚ)) :
    pf.get_total_value prices = pf.cash + pf.get_positions_value prices ∧
    pf.get_positions_value prices =
      ((pf.positions.filter
          (fun kv => ((alookup prices kv.1).isSome && decide (0 < kv.2.quantity)))).map
        (fun kv => (kv.2.quantity : ℚ) * ((alookup prices kv.1).getD 0))).sum ∧
    pf.get_total_value prices = pf.get_total_value prices ∧
    pf.get_positions_value prices = pf.get_positions_value prices := by
  refine ⟨?_, ?_, rfl, rfl⟩
  · rw [Portfolio.get_total_value, Portfolio.get_positions_value, foldl_posValueStep,
      foldl_posValueStep]
    ring
  · rw [Portfolio.get_positions_value, foldl_posValueStep, zero_add,
      posContribution_sum_filter]

lemma expandingMaxAux_length (vs : List ℚ) : ∀ m, (expandingMaxAux m vs).length = vs.length := by
  induction vs with
  | nil => intro m; rfl
  | cons v tl ih => intro m; simp [expandingMaxAux, ih]

lemma expandingMax_length (values : List ℚ) : (expandingMax values).length = values.length := by
  cases values with
  | nil => rfl
  | cons v vs => simp [expandingMax, expandingMaxAux_length]

lemma expandingMaxAux_getD (vs : List ℚ) : ∀ m (i : Nat), i < vs.length →
    (expandingMaxAux m vs).getD i 0 = (vs.take (i + 1)).foldl max m := by
  induction vs with
  | nil => intro m i h; simp at h
  | cons v tl ih =>
      intro m i h
      cases i with
      | zero => simp [expandingMaxAux]
      | succ i =>
          have h' : i < tl.length := by simpa using h
          simp only [expandingMaxAux, List.getD_cons_succ, List.take_succ_cons,
            List.foldl_cons]
          exact ih (max m v) i h'

lemma expandingMax_getD (values : List ℚ) (i : Nat) (h : i < values.length) :
    (expandingMax values).getD i 0 = peakAt values i := by
  cases values with
  | nil => simp at h
  | cons v vs =>
      rw [expandingMax, expandingMaxAux_getD _ _ _ h, peakAt]
      simp [List.take_succ_cons, List.foldl_cons]

lemma foldl_min_le_init (l : List ℚ) : ∀ a : ℚ, l.foldl min a ≤ a := by
  induction l with
  | nil => intro a; simp
  | cons x xs ih => intro a; exact le_trans (ih (min a x)) (min_le_left a x)

lemma foldl_min_le_mem (l : List ℚ) : ∀ (a x : ℚ), x ∈ l → l.foldl min a ≤ x := by
  induction l with
  | nil => intro a x hx; simp at hx
  | cons y ys ih =>
      intro a x hx
      rcases List.mem_cons.mp hx with h | h
      · subst h
        exact le_trans (foldl_min_le_init ys (min a x)) (min_le_right a x)
      · exact ih (min a y) x h

lemma foldl_min_mem (l : List ℚ) : ∀ a : ℚ, l.foldl min a = a ∨ l.foldl min a ∈ l := by
  induction l with
  | nil => intro a; exact Or.inl rfl
  | cons y ys ih =>
      intro a
      rcases ih (min a y) with h | h
      · rcases min_choice a y with hm | hm
        · exact Or.inl (by rw [List.foldl_cons, h, hm])
        · exact Or.inr (by rw [List.foldl_cons, h, hm]; exact List.mem_cons_self y ys)
      · exact Or.inr (List.mem_cons_of_mem y h)

lemma zipWith_getD (f : ℚ → ℚ → ℚ) (as : List ℚ) : ∀ (bs : List ℚ) (i : Nat),
    i < as.length → i < bs.length →
    (List.zipWith f as bs).getD i 0 = f (as.getD i 0) (bs.getD i 0) := by
  induction as with
  | nil => intro bs i h1 h2; simp at h1
  | cons a as ih =>
      intro bs i h1 h2
      cases bs with
      | nil => simp at h2
      | cons b bs =>
          cases i with
          | zero => simp [List.zipWith]
          | succ i =>
              simp only [List.zipWith, List.getD_cons_succ]
              exact ih bs i (by simpa using h1) (by simpa using h2)

lemma getD_mem (l : List ℚ) : ∀ i : Nat, i < l.length → l.getD i 0 ∈ l := by
  induction l with
  | nil => intro i h; simp at h
  | cons y ys ih =>
      intro i h
      cases i with
      | zero => simp
      | succ i =>
          simp only [List.getD_cons_succ]
          exact List.mem_cons_of_mem _ (ih i (by simpa using h))

lemma mem_getD (l : List ℚ) : ∀ x : ℚ, x ∈ l → ∃ i : Nat, i < l.length ∧ l.getD i 0 = x := by
  induction l with
  | nil => intro x hx; simp at hx
  | cons y ys ih =>
      intro x hx
      rcases List.mem_cons.mp hx with h | h
      · exact ⟨0, by simp, by simp [h.symm]⟩
      · obtain ⟨i, hi, hg⟩ := ih x h
        exact ⟨i + 1, by simpa using hi, by simpa using hg⟩

/-- C7: on a non-empty positive series, `max_drawdown` is the minimum over
days i of (value_i − peak_i)/peak_i (greatest lower bound, attained at some
day), and it is ≤ 0. -/
theorem max_drawdown_is_running_peak_min (values : List ℚ) (hne : values ≠ [])
    (hpos : ∀ v ∈ values, 0 < v) :
    ∃ m, max_drawdown values = some m ∧ m ≤ 0 ∧
      (∀ i : Nat, i < values.length → m ≤ drawdownAt values i) ∧
      (∃ i : Nat, i < values.length ∧ m = drawdownAt values i) := by
  obtain ⟨v, vs, rfl⟩ := List.exists_cons_of_ne_nil hne
  have hD : List.zipWith (fun a b => (a - b) / b) (v :: vs) (expandingMax (v :: vs)) =
      0 :: List.zipWith (fun a b => (a - b) / b) vs (expandingMaxAux v vs) := by
    simp [expandingMax, expandingMaxAux, List.zipWith]
  have hlenD : (List.zipWith (fun a b : ℚ => (a - b) / b) (v :: vs)
      (expandingMax (v :: vs))).length = (v :: vs).length := by
    rw [List.length_zipWith, expandingMax_length, min_self]
  refine ⟨(List.zipWith (fun a b : ℚ => (a - b) / b) vs (expandingMaxAux v vs)).foldl min 0,
    ?_, ?_, ?_, ?_⟩
  · rw [max_drawdown, hD]; rfl
  · exact foldl_min_le_init _ 0
  · intro i hi
    have hiD : i < (List.zipWith (fun a b : ℚ => (a - b) / b) (v :: vs)
        (expandingMax (v :: vs))).length := by rw [hlenD]; exact hi
    have hmem := getD_mem _ i hiD
    rw [hD] at hmem
    have hle : (List.zipWith (fun a b : ℚ => (a - b) / b) vs
        (expandingMaxAux v vs)).foldl min 0 ≤
        (0 :: List.zipWith (fun a b : ℚ => (a - b) / b) vs
          (expandingMaxAux v vs)).getD i 0 := by
      rcases List.mem_cons.mp hmem with h | h
      · rw [h]; exact foldl_min_le_init _ 0
      · exact foldl_min_le_mem _ 0 _ h
    calc (List.zipWith (fun a b : ℚ => (a - b) / b) vs (expandingMaxAux v vs)).foldl min 0
        ≤ (0 :: List.zipWith (fun a b : ℚ => (a - b) / b) vs
            (expandingMaxAux v vs)).getD i 0 := hle
      _ = (List.zipWith (fun a b : ℚ => (a - b) / b) (v :: vs)
            (expandingMax (v :: vs))).getD i 0 := by rw [hD]
      _ = drawdownAt (v :: vs) i := by
            rw [zipWith_getD _ _ _ _ hi (by rw [expandingMax_length]; exact hi),
              expandingMax_getD _ _ hi, drawdownAt]
  · have hmemD : (List.zipWith (fun a b : ℚ => (a - b) / b) vs
        (expandingMaxAux v vs)).foldl min 0 ∈
        List.zipWith (fun a b : ℚ => (a - b) / b) (v :: vs) (expandingMax (v :: vs)) := by
      rw [hD]
      rcases foldl_min_mem (List.zipWith (fun a b : ℚ => (a - b) / b) vs
          (expandingMaxAux v vs)) 0 with h | h
      · rw [h]; exact List.mem_cons_self _ _
      · exact List.mem_cons_of_mem _ h
    obtain ⟨i, hi, hg⟩ := mem_getD _ _ hmemD
    have hi' : i < (v :: vs).length := by rw [← hlenD]; exact hi
    refine ⟨i, hi', ?_⟩
    rw [← hg, zipWith_getD _ _ _ _ hi' (by rw [expandingMax_length]; exact hi'),
      expandingMax_getD _ _ hi', drawdownAt]

/-- Witness for the C7 theorem: the series [100000, 110000, 90000, 95000] has
max drawdown (90000 − 110000)/110000 = −2/11 ≈ −18.18%, which is ≤ 0. -/
theorem max_drawdown_is_running_peak_min_witness :
    max_drawdown c7Values = some (-2/11) ∧ (-2/11 : ℚ) ≤ 0 := by
  have heval : max_drawdown c7Values = some (-2/11) := by
    norm_num [c7Values, max_drawdown, expandingMax, expandingMaxAux, pandasMin,
      List.zipWith, min_def]
  obtain ⟨m, h1, h2, h3, h4⟩ := max_drawdown_is_running_peak_min c7Values
    (by simp [c7Values]) (by norm_num [c7Values])
  have hm : m = -2/11 := by
    rw [heval] at h1
    exact (Option.some.inj h1).symm
  exact ⟨heval, hm ▸ h2⟩

/-- C6 counterexample: on an empty snapshot series (d = 0 ≤ 0) `cagr` raises
(no value) rather than returning 0, refuting the claim's second clause. -/
theorem cagr_empty_raises :
    cagr ([] : List ℚ) 100000 = none ∧ cagr ([] : List ℚ) 100000 ≠ some 0 := by
  refine ⟨rfl, ?_⟩
  intro hc
  rw [(rfl : cagr ([] : List ℚ) 100000 = none)] at hc
  exact Option.noConfusion hc

/-- C6 amended: for every series with d > 0 days, cagr equals
(final/initial)^(252/d) − 1; the d = 0 case errors out (see
`cagr_empty_raises`) instead of returning 0. -/
theorem cagr_formula (values : List ℚ) (initial_cash : ℚ) (h : values ≠ []) :
    cagr values initial_cash =
      some ((((values.getLast h / initial_cash : ℚ)) : ℝ) ^
        ((252 : ℝ) / (values.length : ℝ)) - 1) := by
  have hlen : 0 < values.length := List.length_pos.mpr h
  have hyears : ¬ ((values.length : ℚ) / 252 ≤ 0) := by
    push_neg
    positivity
  rw [cagr, List.getLast?_eq_getLast values h]
  simp only [if_neg hyears]
  congr 2
  push_cast
  rw [one_div_div]

/-- Witness for the C6 amended theorem: a one-day series at the initial cash
has cagr (100000/100000)^(252/1) − 1. -/
theorem cagr_formula_witness :
    cagr [(100000 : ℚ)] 100000 =
      some ((((100000 : ℚ) / 100000 : ℚ) : ℝ) ^ ((252 : ℝ) / ((1 : ℕ) : ℝ)) - 1) := by
  simpa using cagr_formula [(100000 : ℚ)] 100000 (by simp)

/-- C5: with only 3 = `long_window` rows of history (fewer than
`long_window + 1 = 4`), the strategy emits a BUY: the guard
`len(lookback) < long_window` lets exactly `long_window` rows through, the
prior-day long mean is NaN, and NaN comparisons read as "no prior signal", so
today's short > long counts as an upward cross. The claim requires an empty
order list here. -/
theorem ma_crossover_buys_on_insufficient_history :
    (2 + 1 < c5Strategy.long_window + 1) ∧
    MovingAverageCrossover.generate_signals c5Strategy [("A", [100, 100, 130])] 3 2
      [("A", 130)] (fun _ => 0) 100000 =
      [{ ticker := "A", side := Side.buy, quantity := 153 }] := by
  constructor
  · norm_num [c5Strategy]
  · unfold MovingAverageCrossover.generate_signals
    rw [if_neg (by norm_num [get_lookback_len, c5Strategy])]
    simp only [c5Strategy, List.map_cons, List.map_nil, List.flatten]
    norm_num [alookup, lookback_col, macTickerOrders, rollingMeanAt, optGT, pyInt]

/-- C4: the first poll of two `BuyAndHold(["A"])` sub-strategies gives "A" two
buy votes (≥ min_agree = 2), but the quantity is taken from a second poll of
the now-bought strategies, which proposes nothing, so Python's `max()` raises
ValueError (`Except.error`); the claim says one BUY of 666 A is emitted and no
exception escapes. -/
theorem combined_strategy_repoll_error :
    c4Sub 0 = [{ ticker := "A", side := Side.buy, quantity := 666 }] ∧
    c4Sub 1 = [] ∧
    CombinedStrategy.generate_signals [c4Sub, c4Sub] false 2 (fun _ => 0) =
      Except.error () := by
  refine ⟨?_, ?_, ?_⟩ <;>
    norm_num [c4Sub, CombinedStrategy.generate_signals, combinedLoop, tallyOrder, listMax,
      callOutputs, BuyAndHoldState.init, BuyAndHoldState.generate_signals, alookup, pyInt]
